import Mathlib

/-!
Verification of the `inspect_ai` excerpt: the trace CLI anomaly correlator
(`src/inspect_ai/_cli/trace.py`) and the generation-tool loop
(`src/inspect_ai/_eval/task/generate.py`), shallowly embedded in Lean.

Times (`start_time`, `duration`) are modelled as exact rationals; the claims
under study concern only ordering and addition of times, never float rounding.
-/

namespace InspectAI

/-! ## Definitions: trace CLI data model -/

/-- A plain trace record (`TraceRecord` in `_util/trace.py`): level, message,
timestamp.  Only the fields consumed by the code under study are modelled. -/
structure TraceRecord where
  level : String
  message : String
  timestamp : String
deriving DecidableEq, Repr

/-- An action trace record (`ActionTraceRecord`): one lifecycle point of a
named action.  `event` is kept as a string, as in the source, so that the
wildcard (unknown-event) branch of the correlator is representable. -/
structure ActionTraceRecord where
  trace_id : String
  action : String
  event : String
  start_time : Option ℚ
  duration : Option ℚ
  message : String
  detail : Option String
  error : Option String
deriving DecidableEq, Repr

/-- An element of the trace stream: the correlator's `isinstance` check
dispatches on whether a record is an `ActionTraceRecord`. -/
inductive TraceItem where
  | plain (r : TraceRecord)
  | actionRec (r : ActionTraceRecord)
deriving DecidableEq, Repr

/-! ## Definitions: insertion-ordered dictionaries

Python `dict`s keep insertion order; assigning to an existing key replaces the
value in place.  We model them as association lists with those semantics. -/

/-- Lookup in an insertion-ordered dictionary (Python `d.get(k)` / `d[k]`). -/
def dictGet (d : List (String × ActionTraceRecord)) (k : String) :
    Option ActionTraceRecord :=
  match d with
  | [] => none
  | (k1, v1) :: rest => if k1 = k then some v1 else dictGet rest k

/-- Assignment `d[k] = v`: replace in place if the key is present (keeping its
position, as Python dicts do), otherwise append at the end. -/
def dictSet (d : List (String × ActionTraceRecord)) (k : String)
    (v : ActionTraceRecord) : List (String × ActionTraceRecord) :=
  match d with
  | [] => [(k, v)]
  | (k1, v1) :: rest => if k1 = k then (k, v) :: rest else (k1, v1) :: dictSet rest k v

/-- Deletion `del d[k]` (only invoked by the source after a successful
lookup, so removing every binding of `k` agrees with Python on all
reachable dictionaries, whose keys are unique). -/
def dictDel (d : List (String × ActionTraceRecord)) (k : String) :
    List (String × ActionTraceRecord) :=
  d.filter (fun p => p.1 ≠ k)

/-- Boolean membership of a key. -/
def dictMem (d : List (String × ActionTraceRecord)) (k : String) : Bool :=
  (dictGet d k).isSome

/-! ## Definitions: the anomaly correlator (`anomolies_command`)

The command tracks four insertion-ordered dictionaries from trace id to
record and folds the event stream through the `match trace.event` dispatch. -/

/-- The four bucket dictionaries of `anomolies_command`. -/
structure AnomalyState where
  running_actions : List (String × ActionTraceRecord)
  canceled_actions : List (String × ActionTraceRecord)
  error_actions : List (String × ActionTraceRecord)
  timeout_actions : List (String × ActionTraceRecord)
deriving DecidableEq, Repr

/-- Initial correlator state: all four dictionaries empty. -/
def initAnomalyState : AnomalyState := ⟨[], [], [], []⟩

/-- The error message raised by `action_completed` when a terminal event has
no matching running entry. -/
def missingStartMsg (tid : String) : String :=
  "Expected " ++ tid ++ " in action dictionary."

/-- `action_completed`: look up the start record for `t.trace_id` in the
running dictionary; on success remove it and return it, otherwise raise
`RuntimeError` (modelled as `Except.error`). -/
def action_completed (running : List (String × ActionTraceRecord))
    (t : ActionTraceRecord) :
    Except String (ActionTraceRecord × List (String × ActionTraceRecord)) :=
  match dictGet running t.trace_id with
  | some start_trace => .ok (start_trace, dictDel running t.trace_id)
  | none => .error (missingStartMsg t.trace_id)

/-- One step of the correlator: the `match trace.event` dispatch inside
`anomolies_command`.  `enter` stores the record in `running_actions`;
`exit` only removes it; `cancel`/`error`/`timeout` remove it, copy the
original `start_time` onto the terminal record and insert it into the
corresponding bucket — `error` and `timeout` only when `all` was passed
(`action_failed` / `action_timeout` guard on `all`).  An unknown event tag
only prints a warning and leaves the state unchanged. -/
def processEvent (all : Bool) (st : AnomalyState) (t : ActionTraceRecord) :
    Except String AnomalyState :=
  match t.event with
  | "enter" =>
      .ok { st with running_actions := dictSet st.running_actions t.trace_id t }
  | "exit" =>
      match action_completed st.running_actions t with
      | .error m => .error m
      | .ok (_, running') => .ok { st with running_actions := running' }
  | "cancel" =>
      match action_completed st.running_actions t with
      | .error m => .error m
      | .ok (start_trace, running') =>
          let t' := { t with start_time := start_trace.start_time }
          .ok { st with
                running_actions := running',
                canceled_actions := dictSet st.canceled_actions start_trace.trace_id t' }
  | "error" =>
      match action_completed st.running_actions t with
      | .error m => .error m
      | .ok (start_trace, running') =>
          let t' := { t with start_time := start_trace.start_time }
          .ok { st with
                running_actions := running',
                error_actions :=
                  if all then dictSet st.error_actions start_trace.trace_id t'
                  else st.error_actions }
  | "timeout" =>
      match action_completed st.running_actions t with
      | .error m => .error m
      | .ok (start_trace, running') =>
          let t' := { t with start_time := start_trace.start_time }
          .ok { st with
                running_actions := running',
                timeout_actions :=
                  if all then dictSet st.timeout_actions start_trace.trace_id t'
                  else st.timeout_actions }
  | _ => .ok st

/-- The correlator's event loop: fold `processEvent` over the trace stream,
skipping records that are not `ActionTraceRecord`s and stopping at the first
raised error (a raised `RuntimeError` aborts the command). -/
def correlate (all : Bool) (st : AnomalyState) :
    List TraceItem → Except String AnomalyState
  | [] => .ok st
  | item :: rest =>
      match item with
      | .plain _ => correlate all st rest
      | .actionRec t =>
          match processEvent all st t with
          | .error m => .error m
          | .ok st' => correlate all st' rest

/-- The terminal event tags. -/
def isTerminal (e : String) : Bool :=
  e = "exit" || e = "cancel" || e = "error" || e = "timeout"

/-! ## Definitions: per-trace-id views used to state the lifecycle invariant -/

/-- The sequence of event tags carried by the action records of a given
trace id, in stream order. -/
def eventsFor (tid : String) (ts : List TraceItem) : List String :=
  ts.filterMap fun item =>
    match item with
    | .plain _ => none
    | .actionRec t => if t.trace_id = tid then some t.event else none

/-- All trace ids occurring on action records of the stream. -/
def traceIds (ts : List TraceItem) : List String :=
  ts.filterMap fun item =>
    match item with
    | .plain _ => none
    | .actionRec t => some t.trace_id

/-- Shape check for the full event list of one trace id in a well-formed
stream: nothing, a single `enter`, or an `enter` followed by one terminal
event. -/
def tidShapeOkB : List String → Bool
  | [] => true
  | ["enter"] => true
  | ["enter", e] => isTerminal e
  | _ => false

/-- Shape check for the events of a trace id that is currently running:
either nothing more, or exactly one terminal event. -/
def runningShapeOkB : List String → Bool
  | [] => true
  | [e] => isTerminal e
  | _ => false

/-- Remaining-events check relative to whether the trace id is currently in
the running dictionary. -/
def tidOkB (running : Bool) (evs : List String) : Bool :=
  if running then runningShapeOkB evs else tidShapeOkB evs

/-- A stream is well-formed when every trace id carries exactly one `enter`,
optionally followed by exactly one terminal event. -/
def WellFormed (ts : List TraceItem) : Prop :=
  ∀ tid ∈ traceIds ts, tidShapeOkB (eventsFor tid ts) = true

instance wellFormedDecidable (ts : List TraceItem) : Decidable (WellFormed ts) :=
  inferInstanceAs
    (Decidable (∀ tid ∈ traceIds ts, tidShapeOkB (eventsFor tid ts) = true))

/-- Every record stored in the running dictionary sits under its own
`trace_id`; this holds for every state the correlator can reach. -/
def KeyConsistent (st : AnomalyState) : Prop :=
  ∀ k r, dictGet st.running_actions k = some r → r.trace_id = k

/-- Membership of one trace id in the four dictionaries. -/
structure TidMemb where
  running : Bool
  canceled : Bool
  errored : Bool
  timedOut : Bool
deriving DecidableEq, Repr

/-- How one event tag changes the membership of its trace id. -/
def tidStep (all : Bool) (m : TidMemb) (e : String) : TidMemb :=
  match e with
  | "enter" => { m with running := true }
  | "exit" => { m with running := false }
  | "cancel" => { m with running := false, canceled := true }
  | "error" => { m with running := false, errored := m.errored || all }
  | "timeout" => { m with running := false, timedOut := m.timedOut || all }
  | _ => m

/-- The membership view of a correlator state at one trace id. -/
def membOf (st : AnomalyState) (tid : String) : TidMemb :=
  ⟨dictMem st.running_actions tid, dictMem st.canceled_actions tid,
   dictMem st.error_actions tid, dictMem st.timeout_actions tid⟩

/-! ## Definitions: bucket rendering (`_print_bucket`) -/

/-- The sort key of `_print_bucket`:
`(record.start_time or 0) + (record.duration or 0)`.  A missing (or zero)
`start_time` or `duration` contributes `0`; the `time.time() - start_time`
elapsed-time estimate appears only in the rendered duration column, not in
this key. -/
def sortKey (record : ActionTraceRecord) : ℚ :=
  record.start_time.getD 0 + record.duration.getD 0

/-- Stable insertion step: place `r` before the first element whose key is
not larger than `r`'s. -/
def insertDescBy {α : Type} (key : α → ℚ) (r : α) : List α → List α
  | [] => [r]
  | x :: xs => if key r ≥ key x then r :: x :: xs else x :: insertDescBy key r xs

/-- Stable descending sort by a key, modelling Python's
`sorted(..., key=..., reverse=True)` (Python's sort is stable, and
`reverse=True` keeps equal-key elements in their original order). -/
def sortedDescBy {α : Type} (key : α → ℚ) (l : List α) : List α :=
  l.foldr (insertDescBy key) []

/-- The `sorted_actions` list computed by `_print_bucket` from a bucket's
values. -/
def sorted_actions (bucket : List ActionTraceRecord) : List ActionTraceRecord :=
  sortedDescBy sortKey bucket

/-- The sort key as the claim words it (for comparison with `sortKey` only,
not drawn from the source): effective finish time `start_time + duration`,
substituting `current_time - start_time` when `duration` is missing. -/
def claimKey (current_time : ℚ) (record : ActionTraceRecord) : ℚ :=
  record.start_time.getD 0 +
    record.duration.getD (current_time - record.start_time.getD 0)

/-- The bucket order the claim describes: stable descending sort by
`claimKey` (for comparison with `sorted_actions` only). -/
def claimSorted (current_time : ℚ) (bucket : List ActionTraceRecord) :
    List ActionTraceRecord :=
  sortedDescBy (claimKey current_time) bucket

/-! ## Definitions: output shaping of `anomolies_command` -/

/-- The notice printed when all buckets are empty and `--all` was passed. -/
def noAnomaliesAllMsg : String := "No anomalies found in trace log."

/-- The notice printed when all buckets are empty in the default mode. -/
def noAnomaliesDefaultMsg : String :=
  "No running or cancelled actions found in trace log (pass --all to see errors and timeouts)."

/-- What the anomalies command prints after correlation: a notice, or the
four sorted buckets. -/
inductive AnomaliesView where
  | notice (text : String)
  | report (running canceled errored timedOut : List ActionTraceRecord)
deriving DecidableEq, Repr

/-- Output shaping of `anomolies_command` after correlation: if the four
buckets are all empty, print a "no anomalies" notice whose wording depends
on `--all`; otherwise render the buckets, each ordered as `_print_bucket`
orders it. -/
def anomaliesView (all : Bool) (st : AnomalyState) : AnomaliesView :=
  if st.running_actions.length + st.canceled_actions.length +
      st.error_actions.length + st.timeout_actions.length = 0 then
    .notice (if all then noAnomaliesAllMsg else noAnomaliesDefaultMsg)
  else
    .report (sorted_actions (st.running_actions.map Prod.snd))
      (sorted_actions (st.canceled_actions.map Prod.snd))
      (sorted_actions (st.error_actions.map Prod.snd))
      (sorted_actions (st.timeout_actions.map Prod.snd))

/-! ## Definitions: the generation-tool loop (`_eval/task/generate.py`) -/

/-- Tool-choice policy: the string literals `"auto"`/`"any"`/`"none"` or a
forced specific tool (a `ToolFunction` naming it). -/
inductive ToolChoice where
  | auto
  | any
  | none
  | forced (name : String)
deriving DecidableEq, Repr

/-- The `tool_calls` argument: `"loop"`, `"single"` or `"none"`. -/
inductive ToolCallsMode where
  | loop
  | single
  | none
deriving DecidableEq, Repr

/-- A chat message; `tool_calls` is the list of requested tool calls (empty
for Python `None`, whose truthiness the source tests). -/
structure Message where
  content : String
  tool_calls : List String
deriving DecidableEq, Repr

/-- A model output; only its `message` and its identity matter here. -/
structure ModelOutput where
  message : Message
deriving DecidableEq, Repr

/-- The mutable `TaskState` fields threaded through `task_generate`. -/
structure TaskState where
  messages : List Message
  output : ModelOutput
  epoch : ℕ
  tool_choice : ToolChoice
deriving DecidableEq, Repr

/-- The loop's external collaborators, as deterministic oracles:
`model.generate` (a function of the conversation and the tool choice),
`execute_tools` (returning result messages and an optional output), and
the `state.completed` property (a function of the conversation). -/
structure GenEnv where
  generate : List Message → ToolChoice → ModelOutput
  execute_tools : List Message → List Message × Option ModelOutput
  completed : List Message → Bool

/-- Observable effects of the loop, in order: an `epoch.set(n)` call, a
`model.generate` call (recording the `tool_choice` passed to it), and a
tool-execution round. -/
inductive GenEv where
  | epochSet (n : ℕ)
  | generateCall (tc : ToolChoice)
  | execTools
deriving DecidableEq, Repr

/-- Result of one run of the `while True` body: return from the function,
or continue looping with the updated tool choice. -/
inductive IterResult where
  | ret (state : TaskState)
  | cont (state : TaskState) (tool_choice : ToolChoice)
deriving DecidableEq, Repr

/-- The state carried by an iteration result. -/
def IterResult.state : IterResult → TaskState
  | .ret st => st
  | .cont st _ => st

/-- One iteration of the `while True` body of `task_generate`, with the
effects it performs: set the epoch, call the model, append the assistant
message; return if completed; otherwise, when tool calls are present and
resolution is enabled, execute the tools, append their messages, adopt a
non-`None` tool output, return if now completed or `tool_calls ==
"single"`, and otherwise continue after relaxing a forced tool choice to
`"auto"`; with no tool calls (or resolution disabled) return. -/
def generateIter (env : GenEnv) (tool_calls : ToolCallsMode)
    (state : TaskState) (tool_choice : ToolChoice) : IterResult × List GenEv :=
  let output := env.generate state.messages tool_choice
  let message := output.message
  let state1 : TaskState :=
    { state with output := output, messages := state.messages ++ [message] }
  let evs := [GenEv.epochSet state.epoch, GenEv.generateCall tool_choice]
  if env.completed state1.messages then (.ret state1, evs)
  else if tool_calls ≠ ToolCallsMode.none ∧ message.tool_calls ≠ [] then
    let result := env.execute_tools state1.messages
    let state2 : TaskState :=
      { state1 with
        messages := state1.messages ++ result.1,
        output := result.2.getD state1.output }
    let evs2 := evs ++ [GenEv.execTools]
    if env.completed state2.messages ∨ tool_calls = ToolCallsMode.single then
      (.ret state2, evs2)
    else
      let tool_choice2 :=
        match tool_choice with
        | .forced _ => ToolChoice.auto
        | tc => tc
      (.cont state2 tool_choice2, evs2)
  else (.ret state1, evs)

/-- The `while True` loop of `task_generate`, with fuel bounding the number
of iterations (the Python loop has no intrinsic bound): `none` means the
fuel ran out before the function returned. -/
def task_generate (env : GenEnv) (tool_calls : ToolCallsMode) :
    ℕ → TaskState → ToolChoice → Option (TaskState × List GenEv)
  | 0, _, _ => none
  | fuel + 1, state, tool_choice =>
      match generateIter env tool_calls state tool_choice with
      | (.ret st, evs) => some (st, evs)
      | (.cont st tc, evs) =>
          match task_generate env tool_calls fuel st tc with
          | none => none
          | some (st', evs') => some (st', evs ++ evs')

/-- Entry point: the local `tool_choice` starts as `state.tool_choice`. -/
def task_generate_run (env : GenEnv) (tool_calls : ToolCallsMode)
    (fuel : ℕ) (state : TaskState) : Option (TaskState × List GenEv) :=
  task_generate env tool_calls fuel state state.tool_choice

/-- Check that every `generate` call in an event list is immediately
preceded by `epoch.set n`. -/
def epochSetBeforeGenerate (n : ℕ) : List GenEv → Bool
  | [] => true
  | GenEv.generateCall _ :: _ => false
  | GenEv.epochSet m :: GenEv.generateCall _ :: rest =>
      decide (m = n) && epochSetBeforeGenerate n rest
  | GenEv.epochSet _ :: rest => epochSetBeforeGenerate n rest
  | GenEv.execTools :: rest => epochSetBeforeGenerate n rest

/-- The tool choices passed to the successive `generate` calls of a run. -/
def generateChoices (evs : List GenEv) : List ToolChoice :=
  evs.filterMap fun ev =>
    match ev with
    | .generateCall tc => some tc
    | _ => none

/-! ## Definitions: concrete records used by the witnesses -/

/-- A terminal record with no preceding `enter`, used to instantiate C2. -/
def orphanExit : ActionTraceRecord :=
  ⟨"t1", "work", "exit", some 0, some 1, "msg", none, none⟩

/-- An enter record used to instantiate C4. -/
def enterT2 : ActionTraceRecord :=
  ⟨"t2", "work", "enter", some 3, none, "msg", none, none⟩

/-- An error record used to instantiate C4. -/
def errorT2 : ActionTraceRecord :=
  ⟨"t2", "work", "error", none, some 2, "msg", none, some "boom"⟩

/-- A correlator state in which `t2` is running, used to instantiate C4. -/
def stT2 : AnomalyState := ⟨[("t2", enterT2)], [], [], []⟩

/-- The first (overwritten) enter record used to instantiate C9. -/
def enterT3a : ActionTraceRecord :=
  ⟨"t3", "work", "enter", some 1, none, "msg", none, none⟩

/-- The second enter record for the same trace id, used to instantiate C9. -/
def enterT3b : ActionTraceRecord :=
  ⟨"t3", "work", "enter", some 7, none, "msg", none, none⟩

/-- A cancel record for the same trace id, used to instantiate C9. -/
def cancelT3 : ActionTraceRecord :=
  ⟨"t3", "work", "cancel", none, some 2, "msg", none, none⟩

/-- An enter record for trace id `a`, used to instantiate C3. -/
def enterA : ActionTraceRecord :=
  ⟨"a", "work", "enter", some 5, none, "msg", none, none⟩

/-- A cancel record for trace id `a`, used to instantiate C3. -/
def cancelA : ActionTraceRecord :=
  ⟨"a", "work", "cancel", none, some 4, "msg", none, none⟩

/-- A still-running record (no `duration`) started at time 0, for C1. -/
def runA : ActionTraceRecord :=
  ⟨"A", "alpha", "enter", some 0, none, "msg", none, none⟩

/-- A still-running record (no `duration`) started at time 2, for C1. -/
def runB : ActionTraceRecord :=
  ⟨"B", "beta", "enter", some 2, none, "msg", none, none⟩

/-- First-arrived record of the C1 witness bucket (key 5). -/
def recW1 : ActionTraceRecord :=
  ⟨"w1", "a1", "cancel", some 5, some 0, "m", none, none⟩

/-- Second-arrived record of the C1 witness bucket (key 3). -/
def recW2 : ActionTraceRecord :=
  ⟨"w2", "a2", "cancel", some 1, some 2, "mm", none, none⟩

/-- Third-arrived record of the C1 witness bucket (key 3, tying recW2). -/
def recW3 : ActionTraceRecord :=
  ⟨"w3", "a3", "cancel", some 0, some 3, "mmm", none, none⟩

/-- Arrival order of the C1 witness records (their message lengths grow
with arrival position). -/
def arrivalR (a b : ActionTraceRecord) : Prop :=
  a.message.length < b.message.length

instance arrivalRDecidable (a b : ActionTraceRecord) : Decidable (arrivalR a b) :=
  inferInstanceAs (Decidable (a.message.length < b.message.length))

/-- An assistant message requesting one tool call, for the loop witnesses. -/
def msgTool : Message := ⟨"call the tool", ["toolA"]⟩

/-- An assistant message with no tool calls, for the loop witnesses. -/
def msgPlain : Message := ⟨"done", []⟩

/-- A tool result message, for the loop witnesses. -/
def msgToolResult : Message := ⟨"tool result", []⟩

/-- A deterministic environment for the loop witnesses: the first
generation requests one tool call, later ones none; tool execution appends
one result message and returns no output; the state never reports
completed. -/
def envW : GenEnv where
  generate := fun msgs _ => if msgs.length = 0 then ⟨msgTool⟩ else ⟨msgPlain⟩
  execute_tools := fun _ => ([msgToolResult], Option.none)
  completed := fun _ => false

/-- The starting task state of the generation-loop witnesses. -/
def st0 : TaskState := ⟨[], ⟨msgPlain⟩, 5, ToolChoice.forced "toolA"⟩

/-- The final state of the two-iteration loop run used by the witnesses. -/
def stFin : TaskState :=
  ⟨[msgTool, msgToolResult, msgPlain], ⟨msgPlain⟩, 5, ToolChoice.forced "toolA"⟩

/-- The event trace of the two-iteration loop run used by the witnesses. -/
def evsFin : List GenEv :=
  [GenEv.epochSet 5, GenEv.generateCall (ToolChoice.forced "toolA"),
    GenEv.execTools, GenEv.epochSet 5, GenEv.generateCall ToolChoice.auto]

/-! ## Theorems: dictionary lemmas -/

@[simp] theorem dictGet_nil (k : String) : dictGet [] k = none := rfl

theorem dictGet_set_self (d : List (String × ActionTraceRecord)) (k : String)
    (v : ActionTraceRecord) : dictGet (dictSet d k v) k = some v := by
  induction d with
  | nil => simp [dictSet, dictGet]
  | cons p rest ih =>
    obtain ⟨k1, v1⟩ := p
    by_cases h : k1 = k
    · simp [dictSet, h, dictGet]
    · simp [dictSet, h, dictGet, ih]

theorem dictGet_set_ne (d : List (String × ActionTraceRecord)) (k k' : String)
    (v : ActionTraceRecord) (h : k' ≠ k) :
    dictGet (dictSet d k v) k' = dictGet d k' := by
  induction d with
  | nil => simp [dictSet, dictGet, Ne.symm h]
  | cons p rest ih =>
    obtain ⟨k1, v1⟩ := p
    by_cases h1 : k1 = k
    · subst h1
      simp [dictSet, dictGet, Ne.symm h]
    · simp only [dictSet, if_neg h1]
      by_cases h2 : k1 = k'
      · simp [dictGet, h2]
      · simp [dictGet, h2, ih]

theorem dictGet_del_self (d : List (String × ActionTraceRecord)) (k : String) :
    dictGet (dictDel d k) k = none := by
  induction d with
  | nil => simp [dictDel]
  | cons p rest ih =>
    obtain ⟨k1, v1⟩ := p
    by_cases h : k1 = k
    · simpa [dictDel, List.filter_cons, h] using ih
    · simpa [dictDel, List.filter_cons, dictGet, h] using ih

theorem dictGet_del_ne (d : List (String × ActionTraceRecord)) (k k' : String)
    (h : k' ≠ k) : dictGet (dictDel d k) k' = dictGet d k' := by
  induction d with
  | nil => simp [dictDel]
  | cons p rest ih =>
    obtain ⟨k1, v1⟩ := p
    by_cases h1 : k1 = k
    · subst h1
      simpa [dictDel, List.filter_cons, dictGet, Ne.symm h] using ih
    · by_cases h2 : k1 = k'
      · simp [dictDel, List.filter_cons, dictGet, h1, h2, h]
      · simpa [dictDel, List.filter_cons, dictGet, h1, h2] using ih

theorem dictGet_set_cases (d : List (String × ActionTraceRecord))
    (k k' : String) (v r : ActionTraceRecord)
    (h : dictGet (dictSet d k v) k' = some r) :
    (k' = k ∧ r = v) ∨ dictGet d k' = some r := by
  by_cases hk : k' = k
  · subst hk
    rw [dictGet_set_self] at h
    exact Or.inl ⟨rfl, (Option.some_injective _ h).symm⟩
  · rw [dictGet_set_ne d k k' v hk] at h
    exact Or.inr h

theorem dictGet_del_subset (d : List (String × ActionTraceRecord))
    (k k' : String) (r : ActionTraceRecord)
    (h : dictGet (dictDel d k) k' = some r) : dictGet d k' = some r := by
  by_cases hk : k' = k
  · subst hk; rw [dictGet_del_self] at h; cases h
  · rwa [dictGet_del_ne d k k' hk] at h

theorem isTerminal_cases (e : String) (h : isTerminal e = true) :
    e = "exit" ∨ e = "cancel" ∨ e = "error" ∨ e = "timeout" := by
  simp only [isTerminal, Bool.or_eq_true, decide_eq_true_eq] at h
  tauto

/-! ## Theorems: claims about the correlator's single steps (C2, C4, C9) -/

/-- C2: a terminal event (`exit`, `cancel`, `error` or `timeout`) whose
`trace_id` is not currently in the running dictionary makes `processEvent`
raise the protocol-violation `RuntimeError`, and the correlator loop stops
there: the remaining events are never processed. -/
theorem terminal_without_enter_raises (all : Bool) (st : AnomalyState)
    (t : ActionTraceRecord) (h1 : isTerminal t.event = true)
    (h2 : dictGet st.running_actions t.trace_id = none) :
    processEvent all st t = .error (missingStartMsg t.trace_id) ∧
      ∀ rest, correlate all st (TraceItem.actionRec t :: rest) =
        .error (missingStartMsg t.trace_id) := by
  have hpe : processEvent all st t = .error (missingStartMsg t.trace_id) := by
    rcases isTerminal_cases t.event h1 with h | h | h | h <;>
      simp [processEvent, h, action_completed, h2]
  exact ⟨hpe, fun rest => by simp [correlate, hpe]⟩

/-- Witness for C2 at a concrete input. -/
theorem terminal_without_enter_raises_witness :
    (isTerminal orphanExit.event = true ∧
        dictGet initAnomalyState.running_actions orphanExit.trace_id = none) ∧
      processEvent false initAnomalyState orphanExit =
        .error (missingStartMsg "t1") := by
  refine ⟨⟨by decide, rfl⟩, ?_⟩
  exact (terminal_without_enter_raises false initAnomalyState orphanExit
    (by decide) rfl).1

/-- C4: for a matched action, an `error` or `timeout` event inserts into its
bucket exactly when `--all` was passed (otherwise the action is removed from
running and discarded, and no bucket changes), while `cancel` populates the
cancelled bucket in both modes; in every case the matched action leaves the
running dictionary. -/
theorem error_timeout_buckets_gated (all : Bool) (st : AnomalyState)
    (t start : ActionTraceRecord)
    (h : dictGet st.running_actions t.trace_id = some start) :
    (t.event = "error" → ∃ st', processEvent all st t = .ok st' ∧
        dictGet st'.running_actions t.trace_id = none ∧
        st'.canceled_actions = st.canceled_actions ∧
        st'.timeout_actions = st.timeout_actions ∧
        (all = false → st'.error_actions = st.error_actions) ∧
        (all = true → dictGet st'.error_actions start.trace_id =
          some { t with start_time := start.start_time })) ∧
    (t.event = "timeout" → ∃ st', processEvent all st t = .ok st' ∧
        dictGet st'.running_actions t.trace_id = none ∧
        st'.canceled_actions = st.canceled_actions ∧
        st'.error_actions = st.error_actions ∧
        (all = false → st'.timeout_actions = st.timeout_actions) ∧
        (all = true → dictGet st'.timeout_actions start.trace_id =
          some { t with start_time := start.start_time })) ∧
    (t.event = "cancel" → ∃ st', processEvent all st t = .ok st' ∧
        dictGet st'.running_actions t.trace_id = none ∧
        st'.error_actions = st.error_actions ∧
        st'.timeout_actions = st.timeout_actions ∧
        dictGet st'.canceled_actions start.trace_id =
          some { t with start_time := start.start_time }) := by
  refine ⟨fun hev => ?_, fun hev => ?_, fun hev => ?_⟩
  · refine ⟨{ st with
        running_actions := dictDel st.running_actions t.trace_id,
        error_actions := if all then dictSet st.error_actions start.trace_id
          { t with start_time := start.start_time } else st.error_actions },
      ?_, dictGet_del_self _ _, rfl, rfl, fun ha => by simp [ha],
      fun ha => by simp [ha, dictGet_set_self]⟩
    simp [processEvent, hev, action_completed, h]
  · refine ⟨{ st with
        running_actions := dictDel st.running_actions t.trace_id,
        timeout_actions := if all then dictSet st.timeout_actions start.trace_id
          { t with start_time := start.start_time } else st.timeout_actions },
      ?_, dictGet_del_self _ _, rfl, rfl, fun ha => by simp [ha],
      fun ha => by simp [ha, dictGet_set_self]⟩
    simp [processEvent, hev, action_completed, h]
  · refine ⟨{ st with
        running_actions := dictDel st.running_actions t.trace_id,
        canceled_actions := dictSet st.canceled_actions start.trace_id
          { t with start_time := start.start_time } },
      ?_, dictGet_del_self _ _, rfl, rfl, dictGet_set_self _ _ _⟩
    simp [processEvent, hev, action_completed, h]

/-- Witness for C4 at a concrete input. -/
theorem error_timeout_buckets_gated_witness :
    dictGet stT2.running_actions errorT2.trace_id = some enterT2 ∧
      (errorT2.event = "error" → ∃ st',
        processEvent true stT2 errorT2 = .ok st' ∧
        dictGet st'.running_actions errorT2.trace_id = none ∧
        st'.canceled_actions = stT2.canceled_actions ∧
        st'.timeout_actions = stT2.timeout_actions ∧
        (true = false → st'.error_actions = stT2.error_actions) ∧
        (true = true → dictGet st'.error_actions enterT2.trace_id =
          some { errorT2 with start_time := enterT2.start_time })) :=
  ⟨rfl, (error_timeout_buckets_gated true stT2 errorT2 enterT2 rfl).1⟩

/-- C9: an `enter` event for a trace id that is already running raises no
error: the new record silently overwrites the previous one in the running
dictionary, and a later terminal event (here a `cancel`) matches the most
recent enter — the `start_time` copied onto the bucketed record is the new
enter's, and the earlier instance appears nowhere. -/
theorem duplicate_enter_overwrites (all : Bool) (st : AnomalyState)
    (old t c : ActionTraceRecord) (tid : String)
    (ht : t.trace_id = tid) (hc : c.trace_id = tid)
    (hte : t.event = "enter") (hce : c.event = "cancel")
    (h : dictGet st.running_actions tid = some old) :
    ∃ st1 st2,
      processEvent all st t = .ok st1 ∧
      dictGet st1.running_actions tid = some t ∧
      processEvent all st1 c = .ok st2 ∧
      dictGet st2.canceled_actions tid = some { c with start_time := t.start_time } := by
  subst ht
  refine ⟨{ st with running_actions := dictSet st.running_actions t.trace_id t },
    { st with
      running_actions := dictDel (dictSet st.running_actions t.trace_id t) c.trace_id,
      canceled_actions := dictSet st.canceled_actions t.trace_id
        { c with start_time := t.start_time } },
    ?_, dictGet_set_self _ _ _, ?_, ?_⟩
  · simp [processEvent, hte]
  · simp [processEvent, hce, action_completed, hc, dictGet_set_self]
  · exact dictGet_set_self _ _ _

/-- Witness for C9 at a concrete input. -/
theorem duplicate_enter_overwrites_witness :
    dictGet (AnomalyState.running_actions ⟨[("t3", enterT3a)], [], [], []⟩) "t3" =
        some enterT3a ∧
      ∃ st1 st2,
        processEvent false ⟨[("t3", enterT3a)], [], [], []⟩ enterT3b = .ok st1 ∧
        dictGet st1.running_actions "t3" = some enterT3b ∧
        processEvent false st1 cancelT3 = .ok st2 ∧
        dictGet st2.canceled_actions "t3" =
          some { cancelT3 with start_time := enterT3b.start_time } :=
  ⟨rfl, duplicate_enter_overwrites false ⟨[("t3", enterT3a)], [], [], []⟩
    enterT3a enterT3b cancelT3 "t3" rfl rfl rfl rfl rfl⟩

/-! ## Theorems: the lifecycle invariant (C3) -/

theorem eventsFor_nil (tid : String) : eventsFor tid [] = [] := rfl

theorem eventsFor_cons_plain (tid : String) (r : TraceRecord) (ts : List TraceItem) :
    eventsFor tid (.plain r :: ts) = eventsFor tid ts := by
  simp [eventsFor, List.filterMap_cons]

theorem eventsFor_cons_self (tid : String) (t : ActionTraceRecord)
    (ts : List TraceItem) (h : t.trace_id = tid) :
    eventsFor tid (.actionRec t :: ts) = t.event :: eventsFor tid ts := by
  simp [eventsFor, List.filterMap_cons, h]

theorem eventsFor_cons_other (tid : String) (t : ActionTraceRecord)
    (ts : List TraceItem) (h : t.trace_id ≠ tid) :
    eventsFor tid (.actionRec t :: ts) = eventsFor tid ts := by
  simp [eventsFor, List.filterMap_cons, h]

theorem eventsFor_eq_nil_of_not_mem (tid : String) (ts : List TraceItem)
    (h : tid ∉ traceIds ts) : eventsFor tid ts = [] := by
  induction ts with
  | nil => rfl
  | cons item rest ih =>
    cases item with
    | plain r =>
      rw [eventsFor_cons_plain]
      exact ih (by simpa [traceIds, List.filterMap_cons] using h)
    | actionRec t =>
      have hne : t.trace_id ≠ tid := by
        intro he
        exact h (by simp [traceIds, List.filterMap_cons, he])
      rw [eventsFor_cons_other _ _ _ hne]
      exact ih fun hm => h (by simp [traceIds, List.filterMap_cons]; tauto)

theorem tidShapeOkB_cons (x : String) (l : List String)
    (h : tidShapeOkB (x :: l) = true) :
    x = "enter" ∧ (l = [] ∨ ∃ e, isTerminal e = true ∧ l = [e]) := by
  match l with
  | [] =>
    by_cases hx : x = "enter"
    · exact ⟨hx, Or.inl rfl⟩
    · simp [tidShapeOkB, hx] at h
  | [e] =>
    by_cases hx : x = "enter"
    · subst hx
      exact ⟨rfl, Or.inr ⟨e, by simpa [tidShapeOkB] using h, rfl⟩⟩
    · simp [tidShapeOkB, hx] at h
  | _ :: _ :: _ => simp [tidShapeOkB] at h

theorem runningShapeOkB_cons (x : String) (l : List String)
    (h : runningShapeOkB (x :: l) = true) :
    isTerminal x = true ∧ l = [] := by
  match l with
  | [] => exact ⟨by simpa [runningShapeOkB] using h, rfl⟩
  | _ :: _ => simp [runningShapeOkB] at h

theorem processEvent_ok_cases (all : Bool) (st : AnomalyState)
    (t : ActionTraceRecord) (st' : AnomalyState)
    (h : processEvent all st t = .ok st') :
    (t.event = "enter" ∧
      st' = { st with running_actions := dictSet st.running_actions t.trace_id t }) ∨
    (∃ start, isTerminal t.event = true ∧
      dictGet st.running_actions t.trace_id = some start ∧
      st'.running_actions = dictDel st.running_actions t.trace_id ∧
      st'.canceled_actions = (if t.event = "cancel"
        then dictSet st.canceled_actions start.trace_id
          { t with start_time := start.start_time }
        else st.canceled_actions) ∧
      st'.error_actions = (if t.event = "error" ∧ all = true
        then dictSet st.error_actions start.trace_id
          { t with start_time := start.start_time }
        else st.error_actions) ∧
      st'.timeout_actions = (if t.event = "timeout" ∧ all = true
        then dictSet st.timeout_actions start.trace_id
          { t with start_time := start.start_time }
        else st.timeout_actions)) ∨
    (t.event ≠ "enter" ∧ isTerminal t.event = false ∧ st' = st) := by
  by_cases h1 : t.event = "enter"
  · left
    simp only [processEvent, h1, Except.ok.injEq] at h
    subst h
    exact ⟨h1, rfl⟩
  by_cases h2 : t.event = "exit"
  · right; left
    cases hg : dictGet st.running_actions t.trace_id with
    | none => simp [processEvent, h2, action_completed, hg] at h
    | some start =>
      simp only [processEvent, h2, action_completed, hg, Except.ok.injEq] at h
      subst h
      exact ⟨start, by simp [isTerminal, h2], rfl, rfl, by simp [h2],
        by simp [h2], by simp [h2]⟩
  by_cases h3 : t.event = "cancel"
  · right; left
    cases hg : dictGet st.running_actions t.trace_id with
    | none => simp [processEvent, h3, action_completed, hg] at h
    | some start =>
      simp only [processEvent, h3, action_completed, hg, Except.ok.injEq] at h
      subst h
      exact ⟨start, by simp [isTerminal, h3], rfl, rfl, by simp [h3],
        by simp [h3], by simp [h3]⟩
  by_cases h4 : t.event = "error"
  · right; left
    cases hg : dictGet st.running_actions t.trace_id with
    | none => simp [processEvent, h4, action_completed, hg] at h
    | some start =>
      simp only [processEvent, h4, action_completed, hg, Except.ok.injEq] at h
      subst h
      exact ⟨start, by simp [isTerminal, h4], rfl, rfl, by simp [h4],
        by simp [h4], by simp [h4]⟩
  by_cases h5 : t.event = "timeout"
  · right; left
    cases hg : dictGet st.running_actions t.trace_id with
    | none => simp [processEvent, h5, action_completed, hg] at h
    | some start =>
      simp only [processEvent, h5, action_completed, hg, Except.ok.injEq] at h
      subst h
      exact ⟨start, by simp [isTerminal, h5], rfl, rfl, by simp [h5],
        by simp [h5], by simp [h5]⟩
  · right; right
    refine ⟨h1, by simp [isTerminal, h2, h3, h4, h5], ?_⟩
    simp only [processEvent, h1, h2, h3, h4, h5, Except.ok.injEq] at h
    exact h.symm

theorem processEvent_ok_keyConsistent (all : Bool) (st st' : AnomalyState)
    (t : ActionTraceRecord) (hkc : KeyConsistent st)
    (h : processEvent all st t = .ok st') : KeyConsistent st' := by
  rcases processEvent_ok_cases all st t st' h with
    ⟨_, rfl⟩ | ⟨start, _, hg, hr, _, _, _⟩ | ⟨_, _, rfl⟩
  · intro k r hk
    rcases dictGet_set_cases _ _ _ _ _ hk with ⟨rfl, rfl⟩ | hk'
    · rfl
    · exact hkc _ _ hk'
  · intro k r hk
    rw [hr] at hk
    exact hkc _ _ (dictGet_del_subset _ _ _ _ hk)
  · exact hkc

theorem processEvent_ok_membOf_self (all : Bool) (st st' : AnomalyState)
    (t : ActionTraceRecord) (hkc : KeyConsistent st)
    (h : processEvent all st t = .ok st') :
    membOf st' t.trace_id = tidStep all (membOf st t.trace_id) t.event := by
  rcases processEvent_ok_cases all st t st' h with
    ⟨hev, rfl⟩ | ⟨start, hterm, hg, hr, hc, he, hto⟩ | ⟨h1, hterm, rfl⟩
  · simp [membOf, tidStep, hev, dictMem, dictGet_set_self]
  · have hstart : start.trace_id = t.trace_id := hkc _ _ hg
    rcases isTerminal_cases _ hterm with hev | hev | hev | hev <;>
      cases all <;>
      simp [membOf, tidStep, hev, dictMem, hr, hc, he, hto, hstart,
        dictGet_del_self, dictGet_set_self]
  · have h' := hterm
    simp only [isTerminal, Bool.or_eq_false_iff, decide_eq_false_iff_not] at h'
    obtain ⟨⟨⟨hx, hcn⟩, her⟩, hti⟩ := h'
    simp [tidStep, h1, hx, hcn, her, hti]

theorem processEvent_ok_membOf_other (all : Bool) (st st' : AnomalyState)
    (t : ActionTraceRecord) (tid : String) (hkc : KeyConsistent st)
    (h : processEvent all st t = .ok st') (hne : tid ≠ t.trace_id) :
    membOf st' tid = membOf st tid := by
  rcases processEvent_ok_cases all st t st' h with
    ⟨hev, rfl⟩ | ⟨start, hterm, hg, hr, hc, he, hto⟩ | ⟨_, _, rfl⟩
  · simp [membOf, dictMem, dictGet_set_ne _ _ _ _ hne]
  · have hstart : start.trace_id = t.trace_id := hkc _ _ hg
    have hne' : tid ≠ start.trace_id := by rw [hstart]; exact hne
    rcases isTerminal_cases _ hterm with hev | hev | hev | hev <;>
      cases all <;>
      simp [membOf, dictMem, hr, hc, he, hto, hev,
        dictGet_del_ne _ _ _ hne, dictGet_set_ne _ _ _ _ hne']
  · rfl

theorem processEvent_terminal_ok (all : Bool) (st : AnomalyState)
    (t start : ActionTraceRecord) (hterm : isTerminal t.event = true)
    (hg : dictGet st.running_actions t.trace_id = some start) :
    ∃ st1, processEvent all st t = .ok st1 ∧
      st1.running_actions = dictDel st.running_actions t.trace_id := by
  rcases isTerminal_cases _ hterm with hev | hev | hev | hev
  · exact ⟨{ st with running_actions := dictDel st.running_actions t.trace_id },
      by simp [processEvent, hev, action_completed, hg], rfl⟩
  · exact ⟨{ st with
      running_actions := dictDel st.running_actions t.trace_id,
      canceled_actions := dictSet st.canceled_actions start.trace_id
        { t with start_time := start.start_time } },
      by simp [processEvent, hev, action_completed, hg], rfl⟩
  · exact ⟨{ st with
      running_actions := dictDel st.running_actions t.trace_id,
      error_actions := if all then dictSet st.error_actions start.trace_id
        { t with start_time := start.start_time } else st.error_actions },
      by simp [processEvent, hev, action_completed, hg], rfl⟩
  · exact ⟨{ st with
      running_actions := dictDel st.running_actions t.trace_id,
      timeout_actions := if all then dictSet st.timeout_actions start.trace_id
        { t with start_time := start.start_time } else st.timeout_actions },
      by simp [processEvent, hev, action_completed, hg], rfl⟩

theorem correlate_membOf (all : Bool) (ts : List TraceItem) :
    ∀ (st0 st : AnomalyState), KeyConsistent st0 →
      correlate all st0 ts = .ok st →
      ∀ tid, membOf st tid =
        (eventsFor tid ts).foldl (tidStep all) (membOf st0 tid) := by
  induction ts with
  | nil =>
    intro st0 st hkc h tid
    simp only [correlate, Except.ok.injEq] at h
    subst h
    simp [eventsFor]
  | cons item rest ih =>
    intro st0 st hkc h tid
    cases item with
    | plain r =>
      rw [eventsFor_cons_plain]
      exact ih st0 st hkc (by simpa [correlate] using h) tid
    | actionRec t =>
      simp only [correlate] at h
      cases hpe : processEvent all st0 t with
      | error m => simp [hpe] at h
      | ok st1 =>
        rw [hpe] at h
        have hkc1 := processEvent_ok_keyConsistent all st0 st1 t hkc hpe
        by_cases htid : t.trace_id = tid
        · subst htid
          rw [eventsFor_cons_self _ _ _ rfl, List.foldl_cons,
            ← processEvent_ok_membOf_self all st0 st1 t hkc hpe]
          exact ih st1 st hkc1 h t.trace_id
        · rw [eventsFor_cons_other _ _ _ htid,
            ← processEvent_ok_membOf_other all st0 st1 t tid hkc hpe
              (fun he => htid he.symm)]
          exact ih st1 st hkc1 h tid

theorem correlate_ok (all : Bool) (ts : List TraceItem) :
    ∀ st : AnomalyState,
      (∀ tid, tidOkB (dictMem st.running_actions tid) (eventsFor tid ts) = true) →
      ∃ st', correlate all st ts = .ok st' := by
  induction ts with
  | nil => exact fun st _ => ⟨st, rfl⟩
  | cons item rest ih =>
    intro st h
    cases item with
    | plain r =>
      obtain ⟨st', hst'⟩ := ih st (fun tid => by
        have := h tid
        rwa [eventsFor_cons_plain] at this)
      exact ⟨st', by simpa [correlate] using hst'⟩
    | actionRec t =>
      have ht := h t.trace_id
      rw [eventsFor_cons_self _ _ _ rfl] at ht
      cases hrun : dictMem st.running_actions t.trace_id with
      | false =>
        rw [hrun] at ht
        have ht' : tidShapeOkB (t.event :: eventsFor t.trace_id rest) = true := by
          simpa [tidOkB] using ht
        obtain ⟨hev, hrest⟩ := tidShapeOkB_cons _ _ ht'
        have hpe : processEvent all st t =
            .ok { st with running_actions := dictSet st.running_actions t.trace_id t } := by
          simp [processEvent, hev]
        obtain ⟨st', hok⟩ := ih
          { st with running_actions := dictSet st.running_actions t.trace_id t }
          (fun tid => by
            by_cases htid : t.trace_id = tid
            · subst htid
              have hmem : dictMem
                  (dictSet st.running_actions t.trace_id t) t.trace_id = true := by
                simp [dictMem, dictGet_set_self]
              rcases hrest with hrest | ⟨e, hterme, hrest⟩
              · simp [hmem, hrest, tidOkB, runningShapeOkB]
              · simp [hmem, hrest, tidOkB, runningShapeOkB, hterme]
            · have := h tid
              rw [eventsFor_cons_other _ _ _ htid] at this
              simpa [dictMem, dictGet_set_ne _ _ _ _ (fun he => htid he.symm)]
                using this)
        exact ⟨st', by simp only [correlate, hpe]; exact hok⟩
      | true =>
        rw [hrun] at ht
        have ht' : runningShapeOkB (t.event :: eventsFor t.trace_id rest) = true := by
          simpa [tidOkB] using ht
        obtain ⟨hterm, hrest⟩ := runningShapeOkB_cons _ _ ht'
        cases hg : dictGet st.running_actions t.trace_id with
        | none => simp [dictMem, hg] at hrun
        | some start =>
          obtain ⟨st1, hpe, hr1⟩ := processEvent_terminal_ok all st t start hterm hg
          obtain ⟨st', hok⟩ := ih st1 (fun tid => by
            by_cases htid : t.trace_id = tid
            · subst htid
              have hmem : dictMem st1.running_actions t.trace_id = false := by
                simp [dictMem, hr1, dictGet_del_self]
              simp [hmem, hrest, tidOkB, tidShapeOkB]
            · have := h tid
              rw [eventsFor_cons_other _ _ _ htid] at this
              have hmem : dictMem st1.running_actions tid =
                  dictMem st.running_actions tid := by
                simp [dictMem, hr1, dictGet_del_ne _ _ _ (fun he => htid he.symm)]
              rwa [hmem])
          exact ⟨st', by simp only [correlate, hpe]; exact hok⟩

/-- C3: for every well-formed event stream (each trace id has exactly one
`enter`, optionally followed by exactly one terminal event), correlation
succeeds, and every trace id that saw an `enter` and a matching terminal
event `e` ends up out of the running dictionary and in at most one bucket:
in `canceled_actions` exactly when `e` is `cancel`, in `error_actions`
exactly when `--all` was passed and `e` is `error`, in `timeout_actions`
exactly when `--all` was passed and `e` is `timeout` (in particular, on
`exit`, or on `error`/`timeout` without `--all`, it is in no bucket). -/
theorem wellformed_exactly_one_bucket (all : Bool) (ts : List TraceItem)
    (hwf : WellFormed ts) :
    ∃ st, correlate all initAnomalyState ts = .ok st ∧
      ∀ tid e, isTerminal e = true → eventsFor tid ts = ["enter", e] →
        membOf st tid =
          ⟨false, decide (e = "cancel"), all && decide (e = "error"),
            all && decide (e = "timeout")⟩ := by
  have hinit : ∀ tid,
      tidOkB (dictMem initAnomalyState.running_actions tid)
        (eventsFor tid ts) = true := by
    intro tid
    by_cases hm : tid ∈ traceIds ts
    · simpa [tidOkB, initAnomalyState, dictMem, dictGet] using hwf tid hm
    · simp [tidOkB, initAnomalyState, dictMem, dictGet,
        eventsFor_eq_nil_of_not_mem tid ts hm, tidShapeOkB]
  obtain ⟨st, hok⟩ := correlate_ok all ts initAnomalyState hinit
  refine ⟨st, hok, fun tid e hterm hev => ?_⟩
  have hkc0 : KeyConsistent initAnomalyState := by
    intro k r hk
    simp [initAnomalyState, dictGet] at hk
  have hm := correlate_membOf all ts initAnomalyState st hkc0 hok tid
  rw [hev] at hm
  have hm0 : membOf initAnomalyState tid = ⟨false, false, false, false⟩ := rfl
  rw [hm0] at hm
  rcases isTerminal_cases _ hterm with hcase | hcase | hcase | hcase <;>
    subst hcase <;>
    simpa [tidStep] using hm

/-- Witness for C3 at a concrete input. -/
theorem wellformed_exactly_one_bucket_witness :
    WellFormed [TraceItem.actionRec enterA, TraceItem.actionRec cancelA] ∧
      ∃ st, correlate false initAnomalyState
          [TraceItem.actionRec enterA, TraceItem.actionRec cancelA] = .ok st ∧
        ∀ tid e, isTerminal e = true →
          eventsFor tid [TraceItem.actionRec enterA, TraceItem.actionRec cancelA] =
            ["enter", e] →
          membOf st tid =
            ⟨false, decide (e = "cancel"), false && decide (e = "error"),
              false && decide (e = "timeout")⟩ :=
  ⟨by decide, wellformed_exactly_one_bucket false _ (by decide)⟩

/-! ## Theorems: bucket sorting (C1) -/

theorem mem_insertDescBy {α : Type} (key : α → ℚ) (r x : α) (l : List α) :
    x ∈ insertDescBy key r l ↔ x = r ∨ x ∈ l := by
  induction l with
  | nil => simp [insertDescBy]
  | cons y ys ih =>
    by_cases h : key r ≥ key y
    · simp [insertDescBy, h]
    · simp [insertDescBy, h, ih]
      tauto

theorem pairwise_insertDescBy {α : Type} (key : α → ℚ)
    (R : α → α → Prop) (r : α) (l : List α)
    (hQ : l.Pairwise fun a b => key a > key b ∨ (key a = key b ∧ R a b))
    (hr : ∀ x ∈ l, R r x) :
    (insertDescBy key r l).Pairwise
      (fun a b => key a > key b ∨ (key a = key b ∧ R a b)) := by
  induction l with
  | nil => simp [insertDescBy]
  | cons x xs ih =>
    rw [List.pairwise_cons] at hQ
    obtain ⟨hx, hxs⟩ := hQ
    by_cases h : key r ≥ key x
    · rw [insertDescBy, if_pos h]
      refine List.Pairwise.cons ?_ (List.Pairwise.cons hx hxs)
      intro y hy
      rcases List.mem_cons.mp hy with rfl | hy
      · rcases lt_or_eq_of_le (ge_iff_le.mp h) with h' | h'
        · exact Or.inl h'
        · exact Or.inr ⟨h'.symm, hr _ (List.mem_cons_self _ _)⟩
      · have h1 : key y ≤ key x := by
          rcases hx y hy with h' | ⟨h', _⟩
          · exact le_of_lt h'
          · exact le_of_eq h'.symm
        have h2 : key y ≤ key r := le_trans h1 (ge_iff_le.mp h)
        rcases lt_or_eq_of_le h2 with h' | h'
        · exact Or.inl h'
        · exact Or.inr ⟨h'.symm, hr y (List.mem_cons_of_mem _ hy)⟩
    · rw [insertDescBy, if_neg h]
      refine List.Pairwise.cons ?_
        (ih hxs (fun z hz => hr z (List.mem_cons_of_mem _ hz)))
      intro y hy
      rcases (mem_insertDescBy key r y xs).mp hy with rfl | hy
      · exact Or.inl (lt_of_not_ge h)
      · exact hx y hy

theorem mem_sortedDescBy {α : Type} (key : α → ℚ) (x : α) (l : List α) :
    x ∈ sortedDescBy key l ↔ x ∈ l := by
  induction l with
  | nil => simp [sortedDescBy]
  | cons y ys ih =>
    show x ∈ insertDescBy key y (sortedDescBy key ys) ↔ _
    rw [mem_insertDescBy, ih]
    simp

theorem pairwise_sortedDescBy {α : Type} (key : α → ℚ) (R : α → α → Prop)
    (l : List α) (hR : l.Pairwise R) :
    (sortedDescBy key l).Pairwise
      (fun a b => key a > key b ∨ (key a = key b ∧ R a b)) := by
  induction l with
  | nil => simp [sortedDescBy]
  | cons x xs ih =>
    rw [List.pairwise_cons] at hR
    obtain ⟨hx, hxs⟩ := hR
    show ((insertDescBy key x (sortedDescBy key xs)).Pairwise _)
    exact pairwise_insertDescBy key R x _ (ih hxs)
      (fun z hz => hx z ((mem_sortedDescBy key z xs).mp hz))

/-- C1 counterexample: two still-running entries lacking a `duration`,
arrived as [runA (start 0), runB (start 2)].  Under the claim's effective
finish time (substituting `current_time - start_time`, here with
`current_time = 10`) both keys equal 10, a tie, so the claimed order keeps
arrival order [runA, runB]; the code's key substitutes 0 for the missing
duration and renders [runB, runA]. -/
theorem bucket_sort_claim_counterexample :
    sorted_actions [runA, runB] = [runB, runA] ∧
      claimKey 10 runA = claimKey 10 runB ∧
      claimSorted 10 [runA, runB] = [runA, runB] ∧
      sorted_actions [runA, runB] ≠ claimSorted 10 [runA, runB] := by
  have h1 : sorted_actions [runA, runB] = [runB, runA] := by
    simp [sorted_actions, sortedDescBy, insertDescBy, sortKey, runA, runB]
  have h3 : claimSorted 10 [runA, runB] = [runA, runB] := by
    simp [claimSorted, sortedDescBy, insertDescBy, claimKey, runA, runB]
  refine ⟨h1, by simp [claimKey, runA, runB], h3, ?_⟩
  rw [h1, h3]
  simp [runA, runB]

/-- C1 (amended): `_print_bucket` renders a bucket sorted by descending
`(start_time or 0) + (duration or 0)` — a missing duration contributes 0,
it is not replaced by `current_time - start_time` — and ties keep the
original arrival order: if the bucket's entries are pairwise in an arrival
order `R`, every adjacent pair of the output is either strictly descending
in the key, or key-equal and still in arrival order (so the key sequence is
non-increasing and stable). -/
theorem bucket_sorted_desc_stable (R : ActionTraceRecord → ActionTraceRecord → Prop)
    (bucket : List ActionTraceRecord) (hR : bucket.Pairwise R) :
    (sorted_actions bucket).Pairwise
      (fun a b => sortKey a > sortKey b ∨ (sortKey a = sortKey b ∧ R a b)) :=
  pairwise_sortedDescBy sortKey R bucket hR

/-- Witness for the amended C1 at a concrete input. -/
theorem bucket_sorted_desc_stable_witness :
    ([recW1, recW2, recW3].Pairwise arrivalR) ∧
      (sorted_actions [recW1, recW2, recW3]).Pairwise
        (fun a b => sortKey a > sortKey b ∨ (sortKey a = sortKey b ∧ arrivalR a b)) :=
  ⟨by decide, bucket_sorted_desc_stable arrivalR [recW1, recW2, recW3] (by decide)⟩

/-! ## Theorems: empty-bucket notice (C8) -/

/-- C8: when all four buckets are empty after correlation, the command
prints a "no anomalies" notice rather than any table, and the wording of
the notice differs between the `--all` and default modes. -/
theorem empty_buckets_notice (all : Bool) (st : AnomalyState)
    (h : st.running_actions.length + st.canceled_actions.length +
      st.error_actions.length + st.timeout_actions.length = 0) :
    anomaliesView all st =
        .notice (if all then noAnomaliesAllMsg else noAnomaliesDefaultMsg) ∧
      (∀ r c e t, anomaliesView all st ≠ .report r c e t) ∧
      noAnomaliesAllMsg ≠ noAnomaliesDefaultMsg := by
  refine ⟨by simp [anomaliesView, h], ?_, by decide⟩
  intro r c e t
  simp [anomaliesView, h]

/-- Witness for C8 at a concrete input. -/
theorem empty_buckets_notice_witness :
    (initAnomalyState.running_actions.length +
        initAnomalyState.canceled_actions.length +
        initAnomalyState.error_actions.length +
        initAnomalyState.timeout_actions.length = 0) ∧
      anomaliesView true initAnomalyState =
        .notice (if true then noAnomaliesAllMsg else noAnomaliesDefaultMsg) :=
  ⟨rfl, (empty_buckets_notice true initAnomalyState rfl).1⟩

/-! ## Theorems: the generation-tool loop (C5, C6, C7, C10) -/

theorem generateIter_evs (env : GenEnv) (tool_calls : ToolCallsMode)
    (state : TaskState) (tool_choice : ToolChoice) :
    (generateIter env tool_calls state tool_choice).2 =
        [GenEv.epochSet state.epoch, GenEv.generateCall tool_choice] ∨
      (generateIter env tool_calls state tool_choice).2 =
        [GenEv.epochSet state.epoch, GenEv.generateCall tool_choice,
          GenEv.execTools] := by
  simp only [generateIter]
  split
  · left; rfl
  · split
    · split
      · right; rfl
      · right; rfl
    · left; rfl

theorem generateIter_cont_epoch (env : GenEnv) (tool_calls : ToolCallsMode)
    (state : TaskState) (tool_choice : ToolChoice) (st : TaskState)
    (tc : ToolChoice)
    (h : (generateIter env tool_calls state tool_choice).1 = .cont st tc) :
    st.epoch = state.epoch := by
  simp only [generateIter] at h
  split at h
  · cases h
  · split at h
    · split at h
      · cases h
      · injection h with h1 h2
        subst h1
        rfl
    · cases h

/-- C5: in every terminating run of the loop, every `model.generate` call
is immediately preceded by `epoch.set(state.epoch)` in the same iteration
(and the state's epoch never changes across iterations), so no generation
call happens without the epoch having been set first. -/
theorem epoch_set_before_every_generate (env : GenEnv)
    (tool_calls : ToolCallsMode) (fuel : ℕ) :
    ∀ (state : TaskState) (tool_choice : ToolChoice) (st' : TaskState)
      (evs : List GenEv),
      task_generate env tool_calls fuel state tool_choice = some (st', evs) →
      epochSetBeforeGenerate state.epoch evs = true := by
  induction fuel with
  | zero =>
    intro state tc st' evs h
    simp [task_generate] at h
  | succ n ih =>
    intro state tc st' evs h
    rw [task_generate] at h
    cases hit : generateIter env tool_calls state tc with
    | mk res evs1 =>
      rw [hit] at h
      have hevs1 := generateIter_evs env tool_calls state tc
      rw [hit] at hevs1
      simp only [] at hevs1
      cases res with
      | ret st =>
        simp at h
        obtain ⟨-, h2'⟩ := h
        subst h2'
        rcases hevs1 with he | he <;> subst he <;>
          simp [epochSetBeforeGenerate]
      | cont st tc2 =>
        cases hrec : task_generate env tool_calls n st tc2 with
        | none => simp [hrec] at h
        | some p =>
          obtain ⟨st2, evs2⟩ := p
          simp [hrec] at h
          obtain ⟨-, h2'⟩ := h
          subst h2'
          have hepoch : st.epoch = state.epoch :=
            generateIter_cont_epoch env tool_calls state tc st tc2
              (by rw [hit])
          have ihh := ih st tc2 st2 evs2 hrec
          rw [hepoch] at ihh
          rcases hevs1 with he | he <;> subst he <;>
            simpa [epochSetBeforeGenerate] using ihh

theorem task_generate_first_choice (env : GenEnv) (tool_calls : ToolCallsMode)
    (fuel : ℕ) (state : TaskState) (tc : ToolChoice) (st' : TaskState)
    (evs : List GenEv)
    (h : task_generate env tool_calls (fuel + 1) state tc = some (st', evs)) :
    (generateChoices evs)[0]? = some tc := by
  rw [task_generate] at h
  cases hit : generateIter env tool_calls state tc with
  | mk res evs1 =>
    rw [hit] at h
    have hevs1 := generateIter_evs env tool_calls state tc
    rw [hit] at hevs1
    simp only [] at hevs1
    cases res with
    | ret st =>
      simp at h
      obtain ⟨-, h2'⟩ := h
      subst h2'
      rcases hevs1 with he | he <;> subst he <;> simp [generateChoices]
    | cont st tc2 =>
      cases hrec : task_generate env tool_calls fuel st tc2 with
      | none => simp [hrec] at h
      | some p =>
        obtain ⟨st2, evs2⟩ := p
        simp [hrec] at h
        obtain ⟨-, h2'⟩ := h
        subst h2'
        rcases hevs1 with he | he <;> subst he <;> simp [generateChoices]

/-- C6: if the tool choice passed to the first generation call was a forced
specific tool (a `ToolFunction`) and that iteration resolves tool calls and
continues looping (`tool_calls="loop"`, state not completed after the
generation nor after the tools), then the tool choice passed to the second
generation call is `"auto"`. -/
theorem forced_tool_choice_reset_to_auto (env : GenEnv) (fuel : ℕ)
    (state : TaskState) (name : String) (st' : TaskState) (evs : List GenEv)
    (h1 : env.completed (state.messages ++
      [(env.generate state.messages (ToolChoice.forced name)).message]) = false)
    (h2 : (env.generate state.messages
      (ToolChoice.forced name)).message.tool_calls ≠ [])
    (h3 : env.completed (state.messages ++
        (env.generate state.messages (ToolChoice.forced name)).message ::
        (env.execute_tools (state.messages ++
          [(env.generate state.messages (ToolChoice.forced name)).message])).1) =
      false)
    (h : task_generate env ToolCallsMode.loop (fuel + 2) state
      (ToolChoice.forced name) = some (st', evs)) :
    (generateChoices evs)[1]? = some ToolChoice.auto := by
  rw [task_generate] at h
  cases hit : generateIter env ToolCallsMode.loop state (ToolChoice.forced name) with
  | mk res evs1 =>
    rw [hit] at h
    have hcomp := hit
    simp [generateIter, h1, h2, h3] at hcomp
    cases res with
    | ret st => simp at hcomp
    | cont stX tcX =>
      obtain ⟨hres, hevs1'⟩ := hcomp
      injection hres with hst htc
      subst htc
      subst hevs1'
      cases hrec : task_generate env ToolCallsMode.loop (fuel + 1) stX
          ToolChoice.auto with
      | none => simp [hrec] at h
      | some p =>
        obtain ⟨st2, evs2⟩ := p
        simp [hrec] at h
        obtain ⟨-, h2'⟩ := h
        subst h2'
        have hfirst := task_generate_first_choice env ToolCallsMode.loop fuel
          stX ToolChoice.auto st2 evs2 hrec
        simpa [generateChoices] using hfirst

/-- C7: with `tool_calls="single"`, a first response containing tool calls,
and the state not completed right after the generation, the loop executes
the requested tools once, appends their result messages, and returns
immediately — exactly one generation call and one tool round occur,
regardless of the completion state after the tools. -/
theorem single_tool_round_returns (env : GenEnv) (fuel : ℕ)
    (state : TaskState) (tool_choice : ToolChoice)
    (h1 : env.completed (state.messages ++
      [(env.generate state.messages tool_choice).message]) = false)
    (h2 : (env.generate state.messages tool_choice).message.tool_calls ≠ []) :
    ∃ st', task_generate env ToolCallsMode.single (fuel + 1) state tool_choice =
        some (st', [GenEv.epochSet state.epoch, GenEv.generateCall tool_choice,
          GenEv.execTools]) ∧
      st'.messages = state.messages ++
        (env.generate state.messages tool_choice).message ::
        (env.execute_tools (state.messages ++
          [(env.generate state.messages tool_choice).message])).1 ∧
      st'.output = (env.execute_tools (state.messages ++
          [(env.generate state.messages tool_choice).message])).2.getD
        (env.generate state.messages tool_choice) := by
  refine ⟨{ state with
      messages := state.messages ++
        (env.generate state.messages tool_choice).message ::
        (env.execute_tools (state.messages ++
          [(env.generate state.messages tool_choice).message])).1,
      output := (env.execute_tools (state.messages ++
          [(env.generate state.messages tool_choice).message])).2.getD
        (env.generate state.messages tool_choice) },
    ?_, rfl, rfl⟩
  rw [task_generate]
  simp [generateIter, h1, h2]

/-- C10: in any iteration that resolves tool calls, the iteration's
resulting state carries the tool result messages appended to the
conversation, and its `output` is the tool-execution output when that is
not `None`, and otherwise keeps the output of this iteration's generation
call. -/
theorem tool_output_only_replaced_when_present (env : GenEnv)
    (tool_calls : ToolCallsMode) (state : TaskState) (tool_choice : ToolChoice)
    (hmode : tool_calls ≠ ToolCallsMode.none)
    (h1 : env.completed (state.messages ++
      [(env.generate state.messages tool_choice).message]) = false)
    (h2 : (env.generate state.messages tool_choice).message.tool_calls ≠ []) :
    ((generateIter env tool_calls state tool_choice).1.state).messages =
        state.messages ++ (env.generate state.messages tool_choice).message ::
          (env.execute_tools (state.messages ++
            [(env.generate state.messages tool_choice).message])).1 ∧
      ((generateIter env tool_calls state tool_choice).1.state).output =
        (env.execute_tools (state.messages ++
            [(env.generate state.messages tool_choice).message])).2.getD
          (env.generate state.messages tool_choice) := by
  cases tool_choice <;>
    (rw [generateIter]
     simp only [h1, hmode, h2, ne_eq, not_false_eq_true, and_self, if_true,
       if_false, Bool.false_eq_true, ite_true, ite_false]
     split <;> refine ⟨?_, ?_⟩ <;> simp [IterResult.state]) <;>
    (intro name hne
     cases hne)

/-- Witness for C5 at a concrete input. -/
theorem epoch_set_before_every_generate_witness :
    task_generate envW ToolCallsMode.loop 2 st0 (ToolChoice.forced "toolA") =
        some (stFin, evsFin) ∧
      epochSetBeforeGenerate st0.epoch evsFin = true :=
  ⟨by decide,
    epoch_set_before_every_generate envW ToolCallsMode.loop 2 st0
      (ToolChoice.forced "toolA") stFin evsFin (by decide)⟩

/-- Witness for C6 at a concrete input. -/
theorem forced_tool_choice_reset_to_auto_witness :
    (envW.completed (st0.messages ++
        [(envW.generate st0.messages (ToolChoice.forced "toolA")).message]) = false ∧
      (envW.generate st0.messages
        (ToolChoice.forced "toolA")).message.tool_calls ≠ [] ∧
      task_generate envW ToolCallsMode.loop 2 st0 (ToolChoice.forced "toolA") =
        some (stFin, evsFin)) ∧
      (generateChoices evsFin)[1]? = some ToolChoice.auto :=
  ⟨⟨rfl, by decide, by decide⟩,
    forced_tool_choice_reset_to_auto envW 0 st0 "toolA" stFin evsFin rfl
      (by decide) rfl (by decide)⟩

/-- Witness for C7 at a concrete input. -/
theorem single_tool_round_returns_witness :
    (envW.completed (st0.messages ++
        [(envW.generate st0.messages (ToolChoice.forced "toolA")).message]) = false ∧
      (envW.generate st0.messages
        (ToolChoice.forced "toolA")).message.tool_calls ≠ []) ∧
      ∃ st', task_generate envW ToolCallsMode.single 1 st0
          (ToolChoice.forced "toolA") =
          some (st', [GenEv.epochSet st0.epoch,
            GenEv.generateCall (ToolChoice.forced "toolA"), GenEv.execTools]) ∧
        st'.messages = st0.messages ++
          (envW.generate st0.messages (ToolChoice.forced "toolA")).message ::
          (envW.execute_tools (st0.messages ++
            [(envW.generate st0.messages (ToolChoice.forced "toolA")).message])).1 ∧
        st'.output = (envW.execute_tools (st0.messages ++
            [(envW.generate st0.messages (ToolChoice.forced "toolA")).message])).2.getD
          (envW.generate st0.messages (ToolChoice.forced "toolA")) :=
  ⟨⟨rfl, by decide⟩,
    single_tool_round_returns envW 0 st0 (ToolChoice.forced "toolA") rfl (by decide)⟩

/-- Witness for C10 at a concrete input. -/
theorem tool_output_only_replaced_when_present_witness :
    (ToolCallsMode.loop ≠ ToolCallsMode.none ∧
      envW.completed (st0.messages ++
        [(envW.generate st0.messages (ToolChoice.forced "toolA")).message]) = false ∧
      (envW.generate st0.messages
        (ToolChoice.forced "toolA")).message.tool_calls ≠ []) ∧
      (((generateIter envW ToolCallsMode.loop st0
            (ToolChoice.forced "toolA")).1.state).messages =
          st0.messages ++
            (envW.generate st0.messages (ToolChoice.forced "toolA")).message ::
            (envW.execute_tools (st0.messages ++
              [(envW.generate st0.messages (ToolChoice.forced "toolA")).message])).1 ∧
        ((generateIter envW ToolCallsMode.loop st0
            (ToolChoice.forced "toolA")).1.state).output =
          (envW.execute_tools (st0.messages ++
              [(envW.generate st0.messages (ToolChoice.forced "toolA")).message])).2.getD
            (envW.generate st0.messages (ToolChoice.forced "toolA"))) :=
  ⟨⟨by decide, rfl, by decide⟩,
    tool_output_only_replaced_when_present envW ToolCallsMode.loop st0
      (ToolChoice.forced "toolA") (by decide) rfl (by decide)⟩

end InspectAI
